import Mathlib

/-!
Shallow embedding of the scheduling core of `schedlib` (files
`src/schedlib/policies/sat.py` and `src/schedlib/instrument.py`),
together with theorems checking the natural-language specification
against it.  Time stamps are modelled as integers (seconds); a time
block used by the round-robin resolver is a pair `(t0, t1)`.
-/

/-- Modelled from the spec: `core.seq_has_overlap_with_block`'s underlying
pairwise interval-intersection test (`schedlib.core` is not under `src/`).
Per §4.1 of the spec, two blocks overlap when their intervals intersect;
the strict reading (touching endpoints do not overlap) is chosen. -/
def blockOverlap (a b : Int × Int) : Bool :=
  decide (max a.1 b.1 < min a.2 b.2)

/-- Modelled from the spec: `core.seq_has_overlap_with_block(seq, block)`
(`schedlib.core` is not under `src/`): true when `block`'s interval
intersects some interval already in `seq`. -/
def seq_has_overlap_with_block (s : List (Int × Int)) (b : Int × Int) : Bool :=
  s.any (fun m => blockOverlap m b)

/-- The loop state of `round_robin` (sat.py lines 826-831): the
never-updated `block_idx` array, the per-sequence cursor array `block_i`,
the rotation index `seq_i`, the `merged` list of accepted query blocks,
and the list of yielded value blocks (in yield order). -/
structure RRState where
  blockIdx : List Nat
  blockI : List Nat
  seqI : Nat
  merged : List (Int × Int)
  out : List (Int × Int)
deriving DecidableEq

/-- One iteration of the `while True` loop of `round_robin`
(sat.py lines 832-865).  `none` models the `return` (generator
exhaustion); `some s'` is the state at the next loop head.  The
exhaustion test reads `blockIdx` (as the source does: it tests
`block_idx`, which is never incremented), the skip branch only rotates
`seq_i`, and in the accept branch `block_i[seq_i] += 1` is executed
after `seq_i` has already been rotated, exactly as in the source. -/
def round_robin_step (seqs_q seqs_v : List (List (Int × Int)))
    (sun : Option ((Int × Int) → (Int × Int))) (s : RRState) : Option RRState :=
  let n_seq := seqs_q.length
  if (List.range n_seq).all (fun i => (seqs_q.getD i []).length ≤ s.blockIdx.getD i 0) then
    none
  else if (seqs_q.getD s.seqI []).length ≤ s.blockI.getD s.seqI 0 then
    some { s with seqI := (s.seqI + 1) % n_seq }
  else
    let seq_q := seqs_q.getD s.seqI []
    let seq_v := seqs_v.getD s.seqI []
    let block_q := seq_q.getD (s.blockI.getD s.seqI 0) (0, 0)
    let block_v := seq_v.getD (s.blockI.getD s.seqI 0) (0, 0)
    let ok := !seq_has_overlap_with_block s.merged block_q
      && (match sun with | none => true | some f => f block_q == block_q)
    if ok then
      let s' := { s with out := s.out ++ [block_v],
                         merged := s.merged ++ [block_q],
                         seqI := (s.seqI + 1) % n_seq }
      some { s' with blockI := s'.blockI.set s'.seqI (s'.blockI.getD s'.seqI 0 + 1) }
    else
      some { s with blockI := s.blockI.set s.seqI (s.blockI.getD s.seqI 0 + 1) }

/-- Run the `round_robin` loop for at most `fuel` iterations.  The `Bool`
records whether the generator actually returned (exhaustion) within the
given fuel. -/
def round_robin_run (seqs_q seqs_v : List (List (Int × Int)))
    (sun : Option ((Int × Int) → (Int × Int))) :
    Nat → RRState → RRState × Bool
  | 0, s => (s, false)
  | n + 1, s =>
    match round_robin_step seqs_q seqs_v sun s with
    | none => (s, true)
    | some s' => round_robin_run seqs_q seqs_v sun n s'

/-- `round_robin(seqs_q, seqs_v=None, sun_avoidance=None)` (sat.py lines
775-866), run for at most `fuel` loop iterations from the initial state
(`block_idx = [0]*n`, `block_i = [0]*n`, `seq_i = 0`, `merged = []`).
When `seqs_v` is `none` it defaults to `seqs_q`, as in the source. -/
def round_robin (fuel : Nat) (seqs_q : List (List (Int × Int)))
    (seqs_v : Option (List (List (Int × Int))))
    (sun : Option ((Int × Int) → (Int × Int))) : RRState × Bool :=
  round_robin_run seqs_q (seqs_v.getD seqs_q) sun fuel
    ⟨List.replicate seqs_q.length 0, List.replicate seqs_q.length 0, 0, [], []⟩

/-- If every state of `L` steps to a state of `L`, then a run started in
`L` never signals exhaustion and stays in `L`, whatever the fuel. -/
lemma round_robin_run_inv (seqs_q seqs_v : List (List (Int × Int)))
    (sun : Option ((Int × Int) → (Int × Int))) (L : List RRState)
    (hL : ∀ s ∈ L, ∃ s' ∈ L, round_robin_step seqs_q seqs_v sun s = some s') :
    ∀ fuel s, s ∈ L →
      (round_robin_run seqs_q seqs_v sun fuel s).2 = false ∧
      (round_robin_run seqs_q seqs_v sun fuel s).1 ∈ L := by
  intro fuel
  induction fuel with
  | zero => intro s hs; exact ⟨rfl, hs⟩
  | succ n ih =>
    intro s hs
    obtain ⟨s', hs', hstep⟩ := hL s hs
    simp only [round_robin_run, hstep]
    exact ih s' hs'

/-- C1: the claim asserts that `round_robin` terminates for every finite
input, signalling exhaustion exactly when every cursor reaches the end of
its list.  The code instead tests the never-incremented `block_idx` array
in its exhaustion check, so for the one-candidate input `[[(1,2)]]` the
generator never returns, no matter how many loop iterations it is given:
the claim is false of the code. -/
theorem round_robin_C1_nontermination :
    ∀ fuel, (round_robin fuel [[((1 : Int), (2 : Int))]] none none).2 = false := by
  intro fuel
  have h := round_robin_run_inv [[(1,2)]] [[(1,2)]] none
    [⟨[0],[0],0,[],[]⟩, ⟨[0],[1],0,[(1,2)],[(1,2)]⟩]
    (by decide) fuel ⟨[0],[0],0,[],[]⟩ (by decide)
  simpa [round_robin] using h.1

/-- C2: the claim (end-to-end scenario A, also the source's own docstring
example) says `round_robin([[(1,2),(3,4)],[(5,6)]])` yields `[1,2]`,
`[5,6]`, `[3,4]` and then finishes.  In fact the block `(5,6)` is never
yielded — accepting `(1,2)` advances the second list's cursor instead of
the first's — and the generator never signals exhaustion. -/
theorem round_robin_C2_scenarioA :
    ∀ fuel,
      (round_robin fuel [[(1,2),(3,4)],[(5,6)]] none none).2 = false ∧
      ((5 : Int), (6 : Int)) ∉ (round_robin fuel [[(1,2),(3,4)],[(5,6)]] none none).1.out := by
  intro fuel
  have h := round_robin_run_inv [[(1,2),(3,4)],[(5,6)]] [[(1,2),(3,4)],[(5,6)]] none
    [⟨[0,0],[0,0],0,[],[]⟩,
     ⟨[0,0],[0,1],1,[(1,2)],[(1,2)]⟩,
     ⟨[0,0],[0,1],0,[(1,2)],[(1,2)]⟩,
     ⟨[0,0],[1,1],0,[(1,2)],[(1,2)]⟩,
     ⟨[0,0],[1,2],1,[(1,2),(3,4)],[(1,2),(3,4)]⟩,
     ⟨[0,0],[1,2],0,[(1,2),(3,4)],[(1,2),(3,4)]⟩,
     ⟨[0,0],[2,2],0,[(1,2),(3,4)],[(1,2),(3,4)]⟩,
     ⟨[0,0],[2,2],1,[(1,2),(3,4)],[(1,2),(3,4)]⟩]
    (by decide) fuel ⟨[0,0],[0,0],0,[],[]⟩ (by decide)
  have hout : ∀ s ∈ ([⟨[0,0],[0,0],0,[],[]⟩,
     ⟨[0,0],[0,1],1,[(1,2)],[(1,2)]⟩,
     ⟨[0,0],[0,1],0,[(1,2)],[(1,2)]⟩,
     ⟨[0,0],[1,1],0,[(1,2)],[(1,2)]⟩,
     ⟨[0,0],[1,2],1,[(1,2),(3,4)],[(1,2),(3,4)]⟩,
     ⟨[0,0],[1,2],0,[(1,2),(3,4)],[(1,2),(3,4)]⟩,
     ⟨[0,0],[2,2],0,[(1,2),(3,4)],[(1,2),(3,4)]⟩,
     ⟨[0,0],[2,2],1,[(1,2),(3,4)],[(1,2),(3,4)]⟩] : List RRState),
      ((5 : Int), (6 : Int)) ∉ s.out := by decide
  refine ⟨by simpa [round_robin] using h.1, ?_⟩
  have h2 := hout _ h.2
  simpa [round_robin] using h2

/-- C3: the claim says that when a candidate's block is accepted, that
same candidate's cursor advances by one and rotation moves on.  In the
code the cursor increment is executed after `seq_i` has been rotated, so
after the very first acceptance in scenario A the accepting candidate's
cursor is still `0` while the next candidate's cursor has become `1`. -/
theorem round_robin_C3_wrong_cursor_on_accept :
    (round_robin 1 [[(1,2),(3,4)],[(5,6)]] none none).1 =
      ⟨[0,0], [0,1], 1, [(1,2)], [(1,2)]⟩ := by decide

/-- C5: the claim (end-to-end scenario B) says the resolver's final output
is `[(10,15),(30,35)]`.  With the source's cursor handling, accepting the
first query block `(1,3)` advances the second list's cursor, so `(6,7)` is
skipped and its value `(30,35)` is never yielded; the loop also never
signals exhaustion. -/
theorem round_robin_C5_scenarioB :
    ∀ fuel,
      (round_robin fuel [[(1,3),(2,4)],[(6,7)]] (some [[(10,15),(20,25)],[(30,35)]])
        (some (fun b => b))).2 = false ∧
      ((30 : Int), (35 : Int)) ∉ (round_robin fuel [[(1,3),(2,4)],[(6,7)]]
        (some [[(10,15),(20,25)],[(30,35)]]) (some (fun b => b))).1.out := by
  intro fuel
  have h := round_robin_run_inv [[(1,3),(2,4)],[(6,7)]] [[(10,15),(20,25)],[(30,35)]]
    (some (fun b => b))
    [⟨[0,0],[0,0],0,[],[]⟩,
     ⟨[0,0],[0,1],1,[(1,3)],[(10,15)]⟩,
     ⟨[0,0],[0,1],0,[(1,3)],[(10,15)]⟩,
     ⟨[0,0],[1,1],0,[(1,3)],[(10,15)]⟩,
     ⟨[0,0],[2,1],0,[(1,3)],[(10,15)]⟩,
     ⟨[0,0],[2,1],1,[(1,3)],[(10,15)]⟩]
    (by decide) fuel ⟨[0,0],[0,0],0,[],[]⟩ (by decide)
  have hout : ∀ s ∈ ([⟨[0,0],[0,0],0,[],[]⟩,
     ⟨[0,0],[0,1],1,[(1,3)],[(10,15)]⟩,
     ⟨[0,0],[0,1],0,[(1,3)],[(10,15)]⟩,
     ⟨[0,0],[1,1],0,[(1,3)],[(10,15)]⟩,
     ⟨[0,0],[2,1],0,[(1,3)],[(10,15)]⟩,
     ⟨[0,0],[2,1],1,[(1,3)],[(10,15)]⟩] : List RRState),
      ((30 : Int), (35 : Int)) ∉ s.out := by decide
  refine ⟨by simpa [round_robin] using h.1, ?_⟩
  have h2 := hout _ h.2
  simpa [round_robin] using h2

/-- The resolver's invariant: the yielded blocks coincide with the
`merged` query blocks (value sequences defaulted), and `merged` is
pairwise non-overlapping. -/
def RRInv (s : RRState) : Prop :=
  s.out = s.merged ∧ s.merged.Pairwise (fun a b => blockOverlap a b = false)

lemma round_robin_step_preserves_inv (seqs_q : List (List (Int × Int)))
    (sun : Option ((Int × Int) → (Int × Int))) (s s' : RRState)
    (h : round_robin_step seqs_q seqs_q sun s = some s') (hInv : RRInv s) :
    RRInv s' := by
  obtain ⟨hout, hpw⟩ := hInv
  simp only [round_robin_step] at h
  split at h
  · exact absurd h (by simp)
  · split at h
    · cases h
      exact ⟨hout, hpw⟩
    · split at h
      · -- accept branch: the block passed the overlap test against `merged`
        rename_i hq hcur hok
        have hnov : seq_has_overlap_with_block s.merged
            ((seqs_q.getD s.seqI []).getD (s.blockI.getD s.seqI 0) (0, 0)) = false := by
          rcases Bool.and_eq_true_iff.mp hok with ⟨h1, _⟩
          simpa using h1
        cases h
        refine ⟨by simp [hout], ?_⟩
        rw [List.pairwise_append]
        refine ⟨hpw, by simp, ?_⟩
        intro a ha b hb
        simp only [List.mem_singleton] at hb
        subst hb
        simp only [seq_has_overlap_with_block, List.any_eq_false,
          Bool.not_eq_true] at hnov
        exact hnov a ha
      · cases h
        exact ⟨hout, hpw⟩

lemma round_robin_run_preserves_inv (seqs_q : List (List (Int × Int)))
    (sun : Option ((Int × Int) → (Int × Int))) :
    ∀ fuel s, RRInv s → RRInv (round_robin_run seqs_q seqs_q sun fuel s).1 := by
  intro fuel
  induction fuel with
  | zero => intro s hs; exact hs
  | succ n ih =>
    intro s hs
    rcases hstep : round_robin_step seqs_q seqs_q sun s with _ | s'
    · simpa [round_robin_run, hstep] using hs
    · have h' := round_robin_step_preserves_inv seqs_q sun s s' hstep hs
      simpa [round_robin_run, hstep] using ih s' h'

/-- C4: with the value sequences defaulted to the query sequences, the
blocks yielded by `round_robin` are pairwise non-overlapping (so after
re-sorting by `t0` no two yielded blocks have intersecting intervals):
every accepted block is checked against all previously accepted query
blocks, which are exactly the previously yielded blocks. -/
theorem round_robin_C4_no_overlap (fuel : Nat) (seqs_q : List (List (Int × Int)))
    (sun : Option ((Int × Int) → (Int × Int))) :
    ((round_robin fuel seqs_q none sun).1.out).Pairwise
      (fun a b => blockOverlap a b = false) := by
  have h := round_robin_run_preserves_inv seqs_q sun fuel
    ⟨List.replicate seqs_q.length 0, List.replicate seqs_q.length 0, 0, [], []⟩
    ⟨rfl, List.Pairwise.nil⟩
  obtain ⟨hout, hpw⟩ := h
  simpa [round_robin, hout] using hpw

/-- C8: the resolver is deterministic — two runs on identical query
sequences, identical value sequences and an identical sun-avoidance
predicate produce identical results (output sequence, cursor state and
exhaustion signal); the embedding is a pure function of exactly these
inputs, as the source reads no clock and draws no entropy. -/
theorem round_robin_C8_deterministic (fuel : Nat)
    (q q' : List (List (Int × Int))) (v v' : Option (List (List (Int × Int))))
    (sun sun' : Option ((Int × Int) → (Int × Int)))
    (hq : q = q') (hv : v = v') (hsun : sun = sun') :
    round_robin fuel q v sun = round_robin fuel q' v' sun' := by
  subst hq
  subst hv
  subst hsun
  rfl

/-- Witness for C8 at a concrete input. -/
theorem round_robin_C8_deterministic_witness :
    round_robin 5 [[(1,2),(3,4)],[(5,6)]] none none =
      round_robin 5 [[(1,2),(3,4)],[(5,6)]] none none :=
  round_robin_C8_deterministic 5 _ _ _ _ _ _ rfl rfl rfl

/-- A block as seen by the operation sequencer `SATPolicy.seq2cmd`
(sat.py): only the fields read by the per-block loop are modelled. -/
structure SeqBlock where
  t0 : Int
  t1 : Int
  subtype : String
  boresight_angle : Option Int
  boresight_rot : Option Int
deriving DecidableEq

/-- The sequencer state threaded through the block loop of `seq2cmd`
(sat.py lines 641-645): running clock, detector-setup flag, HWP-spinning
flag and current boresight angle. -/
structure SeqState where
  t_cur : Int
  is_det_setup : Bool
  is_hwp_spinning : Bool
  cur_boresight_angle : Option Int
deriving DecidableEq

/-- The `self.time_costs` table read by `seq2cmd` (seconds). -/
structure TimeCosts where
  det_setup : Int
  hwp_spin_up : Int
  hwp_spin_down : Int
  bias_step : Int
deriving DecidableEq

/-- Symbolic rendering of the command groups `seq2cmd` appends for one
block; the textual script bodies are out of scope (external renderer). -/
inductive SeqEvent where
  | skipNote (b : SeqBlock)
  | detSetupCmd (b : SeqBlock)
  | hwpSpinUpCmd
  | hwpSpinDownCmd
  | setBoresight (angle : Int)
  | waitUntil (t : Int)
  | cmbScan (b : SeqBlock)
  | calScan (b : SeqBlock)
deriving DecidableEq

/-- The setup-time computation at the top of the block loop of `seq2cmd`
(sat.py lines 648-656). -/
def setup_time (tc : TimeCosts) (s : SeqState) (b : SeqBlock) : Int :=
  (if !s.is_det_setup || b.subtype == "cal" then tc.det_setup else 0)
  + (if !s.is_hwp_spinning then tc.hwp_spin_up else 0)
  + (if s.is_hwp_spinning && b.subtype == "cal" then tc.hwp_spin_down + tc.hwp_spin_up else 0)

/-- The body of the `for block in seq` loop of `seq2cmd` (sat.py lines
646-764): a `cmb` block whose setup cannot complete before its `t1` is
skipped with a recorded note and unchanged state; otherwise the `cmb`
or `cal` command groups are emitted, the flags are updated, and the
clock advances to `block.t1 + bias_step`. -/
def seq2cmd_step (tc : TimeCosts) (apply_boresight_rot : Bool)
    (s : SeqState) (b : SeqBlock) : SeqState × List SeqEvent :=
  let st := setup_time tc s b
  if b.subtype == "cmb" && decide (s.t_cur + st > b.t1) then
    (s, [.skipNote b])
  else
    let (s1, evs1) :=
      if b.subtype == "cmb" then
        let (sa, e1) :=
          if !s.is_det_setup then ({ s with is_det_setup := true }, [SeqEvent.detSetupCmd b])
          else (s, [])
        let (sb, e2) :=
          if !sa.is_hwp_spinning then ({ sa with is_hwp_spinning := true }, [SeqEvent.hwpSpinUpCmd])
          else (sa, [])
        let e3 := [SeqEvent.waitUntil b.t0]
        let (sc, e4) :=
          if apply_boresight_rot && b.boresight_angle.isSome
              && !(b.boresight_rot == sb.cur_boresight_angle) then
            ({ sb with cur_boresight_angle := b.boresight_rot },
             [SeqEvent.setBoresight (b.boresight_angle.getD 0)])
          else (sb, [])
        (sc, e1 ++ e2 ++ e3 ++ e4 ++ [SeqEvent.cmbScan b])
      else (s, [])
    let (s2, evs2) :=
      if b.subtype == "cal" then
        let (sa, e1) :=
          if s1.is_hwp_spinning then ({ s1 with is_hwp_spinning := false }, [SeqEvent.hwpSpinDownCmd])
          else (s1, [])
        let sb : SeqState := { sa with is_det_setup := true }
        let e2 := [SeqEvent.detSetupCmd b]
        let (sc, e3) :=
          if apply_boresight_rot && b.boresight_angle.isSome
              && !(b.boresight_rot == sb.cur_boresight_angle) then
            ({ sb with cur_boresight_angle := b.boresight_rot },
             [SeqEvent.setBoresight (b.boresight_angle.getD 0)])
          else (sb, [])
        let (sd, e4) :=
          if !sc.is_hwp_spinning then ({ sc with is_hwp_spinning := true }, [SeqEvent.hwpSpinUpCmd])
          else (sc, [])
        (sd, e1 ++ e2 ++ e3 ++ e4 ++ [SeqEvent.calScan b])
      else (s1, [])
    ({ s2 with t_cur := b.t1 + tc.bias_step }, evs1 ++ evs2)

/-- The whole block loop of `seq2cmd`, folding `seq2cmd_step` over the
sorted block sequence and concatenating the emitted command groups. -/
def seq2cmd_blocks (tc : TimeCosts) (apply_boresight_rot : Bool) :
    SeqState → List SeqBlock → SeqState × List SeqEvent
  | s, [] => (s, [])
  | s, b :: rest =>
    let r1 := seq2cmd_step tc apply_boresight_rot s b
    let r2 := seq2cmd_blocks tc apply_boresight_rot r1.1 rest
    (r2.1, r1.2 ++ r2.2)

/-- C6 counterexample: the claim says any block whose setup does not fit
before its deadline is dropped with a record, state untouched.  For a
`cal` block with `t_cur + setup_time > t1` the code's skip test
(`block.subtype == 'cmb' and ...`) does not fire: the block is processed,
no skip note is recorded, and the sequencer state changes. -/
theorem seq2cmd_C6_counterexample :
    (100 : Int) + setup_time ⟨10, 10, 10, 10⟩ ⟨100, false, false, none⟩
      ⟨0, 50, "cal", none, none⟩ > (50 : Int) ∧
    (seq2cmd_step ⟨10, 10, 10, 10⟩ false ⟨100, false, false, none⟩
      ⟨0, 50, "cal", none, none⟩).1 ≠ ⟨100, false, false, none⟩ ∧
    SeqEvent.skipNote ⟨0, 50, "cal", none, none⟩ ∉
      (seq2cmd_step ⟨10, 10, 10, 10⟩ false ⟨100, false, false, none⟩
        ⟨0, 50, "cal", none, none⟩).2 := by decide

/-- C6 amended: any `cmb` block whose required setup time does not fit
before its `t1` deadline is dropped with an explicit skip record, and the
sequencer advances to the next block with its state (clock, flags,
boresight angle) unchanged. -/
theorem seq2cmd_C6_amended (tc : TimeCosts) (abr : Bool) (s : SeqState)
    (b : SeqBlock) (rest : List SeqBlock)
    (hsub : b.subtype = "cmb") (hlate : s.t_cur + setup_time tc s b > b.t1) :
    seq2cmd_blocks tc abr s (b :: rest) =
      ((seq2cmd_blocks tc abr s rest).1,
        SeqEvent.skipNote b :: (seq2cmd_blocks tc abr s rest).2) := by
  have hc : (b.subtype == "cmb" && decide (s.t_cur + setup_time tc s b > b.t1)) = true := by
    rw [hsub]
    simp [hlate]
  have hstep : seq2cmd_step tc abr s b = (s, [SeqEvent.skipNote b]) := by
    simp only [seq2cmd_step]
    rw [hc]
    simp
  simp [seq2cmd_blocks, hstep]

/-- Witness for the amended C6 at a concrete dropped `cmb` block. -/
theorem seq2cmd_C6_amended_witness :
    seq2cmd_blocks ⟨10, 10, 10, 10⟩ false ⟨100, false, false, none⟩
      [⟨0, 50, "cmb", none, none⟩] =
      (⟨100, false, false, none⟩, [SeqEvent.skipNote ⟨0, 50, "cmb", none, none⟩]) := by
  have h := seq2cmd_C6_amended ⟨10, 10, 10, 10⟩ false ⟨100, false, false, none⟩
    ⟨0, 50, "cmb", none, none⟩ [] rfl (by decide)
  simpa [seq2cmd_blocks] using h

/-- Modelled from the spec: the time constants `u.minute` and `u.hour`
of `schedlib.utils` (not under `src/`), in seconds, matching the spec's
"15-minute" relock duration and "12 hours" relock interval. -/
def minute : Int := 60

/-- Modelled from the spec: seconds per hour (see `minute`). -/
def hour : Int := 3600

/-- The slice of the sequencer state read and written by `ufm_relock`
(sat.py lines 213-240): the current time and the last relock time. -/
structure UfmState where
  curr_time : Int
  last_ufm_relock : Option Int
deriving DecidableEq

/-- The `ufm-relock` operation (sat.py lines 213-240): relock when no
relock is recorded or more than 12 hours have passed since the last one,
returning the 15-minute duration and stamping `last_ufm_relock`;
otherwise return zero duration and leave the state alone. -/
def ufm_relock (s : UfmState) : Int × UfmState :=
  let doit :=
    match s.last_ufm_relock with
    | none => true
    | some t => decide (s.curr_time - t > 12 * hour)
  if doit then (15 * minute, { s with last_ufm_relock := some s.curr_time })
  else (0, s)

/-- C7: `ufm_relock` performs a relock — 15-minute duration, last-relock
timestamp set to the current time — exactly when no relock is recorded or
more than 12 hours have elapsed since the last one; otherwise it returns
zero duration and leaves the state unchanged. -/
theorem ufm_relock_C7 (s : UfmState) :
    ((s.last_ufm_relock = none ∨
        ∃ t, s.last_ufm_relock = some t ∧ s.curr_time - t > 12 * hour) →
      ufm_relock s = (15 * minute, { s with last_ufm_relock := some s.curr_time })) ∧
    ((∃ t, s.last_ufm_relock = some t ∧ s.curr_time - t ≤ 12 * hour) →
      ufm_relock s = (0, s)) := by
  constructor
  · rintro (hnone | ⟨t, ht, hgt⟩)
    · simp [ufm_relock, hnone]
    · simp [ufm_relock, ht, hgt]
  · rintro ⟨t, ht, hle⟩
    simp [ufm_relock, ht, not_lt.mpr hle]

/-- Witness for C7: a relock fires with no recorded relock, and is a
no-op 1000 seconds after one. -/
theorem ufm_relock_C7_witness :
    ufm_relock ⟨0, none⟩ = (15 * minute, ⟨0, some 0⟩) ∧
    ufm_relock ⟨1000, some 0⟩ = (0, ⟨1000, some 0⟩) :=
  ⟨(ufm_relock_C7 ⟨0, none⟩).1 (Or.inl rfl),
   (ufm_relock_C7 ⟨1000, some 0⟩).2 ⟨0, rfl, by decide⟩⟩

/-- The slice of the sequencer state read and written by
`set_scan_params` (sat.py lines 271-281). -/
structure ScanState where
  az_speed_now : Int
  az_accel_now : Int
deriving DecidableEq

/-- Symbolic form of the one command `set_scan_params` can emit. -/
inductive ScanCmd where
  | setScanParamsCmd (az_speed az_accel : Int)
deriving DecidableEq

/-- The `set-scan-params` operation (sat.py lines 271-281): emit the
command and update the state only when the requested speed or
acceleration differs from the current state. -/
def set_scan_params (s : ScanState) (az_speed az_accel : Int) :
    ScanState × List ScanCmd :=
  if az_speed != s.az_speed_now || az_accel != s.az_accel_now then
    (⟨az_speed, az_accel⟩, [ScanCmd.setScanParamsCmd az_speed az_accel])
  else (s, [])

/-- C10: `set_scan_params` emits a command and changes the state exactly
when the requested `az_speed` or `az_accel` differs from the state, and a
second application with the same arguments is a no-op returning an empty
command list. -/
theorem set_scan_params_C10 (s : ScanState) (az_speed az_accel : Int) :
    (((set_scan_params s az_speed az_accel).2 ≠ [] ∧
        (set_scan_params s az_speed az_accel).1 ≠ s) ↔
      (az_speed ≠ s.az_speed_now ∨ az_accel ≠ s.az_accel_now)) ∧
    set_scan_params (set_scan_params s az_speed az_accel).1 az_speed az_accel =
      ((set_scan_params s az_speed az_accel).1, []) := by
  by_cases hd : az_speed ≠ s.az_speed_now ∨ az_accel ≠ s.az_accel_now
  · have hc : (az_speed != s.az_speed_now || az_accel != s.az_accel_now) = true := by
      rcases hd with h | h <;> simp [h]
    have h1 : set_scan_params s az_speed az_accel =
        (⟨az_speed, az_accel⟩, [ScanCmd.setScanParamsCmd az_speed az_accel]) := by
      simp [set_scan_params, hc]
    refine ⟨⟨fun _ => hd, fun _ => ⟨by simp [h1], ?_⟩⟩, ?_⟩
    · rw [h1]
      intro heq
      rcases hd with h | h
      · exact h (by rw [← heq])
      · exact h (by rw [← heq])
    · rw [h1]
      simp [set_scan_params]
  · push_neg at hd
    obtain ⟨h1, h2⟩ := hd
    have hsame : set_scan_params s az_speed az_accel = (s, []) := by
      simp [set_scan_params, h1, h2]
    constructor
    · constructor
      · intro hx
        rw [hsame] at hx
        exact absurd rfl hx.1
      · intro hx
        rcases hx with h | h
        · exact absurd h1 h
        · exact absurd h2 h
    · rw [hsame]
      simpa using hsame

/-- One leaf of a `SpecsTree` (instrument.py): a dict with keys
`bounds_x` and `bounds_y`, here split into the four bound components
(`bounds_x = [bx0, bx1]`, `bounds_y = [by0, by1]`). -/
structure ArraySpec where
  bx0 : Int
  bx1 : Int
  by0 : Int
  by1 : Int
deriving DecidableEq

mutual

/-- The arbitrarily nested `SpecsTree` mapping of instrument.py: a leaf
spec or a string-keyed collection of subtrees. -/
inductive SpecsTree where
  | leaf (spec : ArraySpec)
  | node (children : SpecsForest)

/-- The children of a `SpecsTree` node, as an ordered key-subtree list. -/
inductive SpecsForest where
  | nil
  | cons (key : String) (t : SpecsTree) (rest : SpecsForest)

end

/-- Modelled from the spec: `utils.path2key` (`schedlib.utils` is not
under `src/`) joins the key path of a leaf with dots. -/
def path2key (path : List String) : String :=
  String.intercalate "." path

/-- The Python substring test `p in key`, on the underlying characters. -/
def strContains (key p : String) : Bool :=
  key.toList.tails.any (fun t => p.toList.isPrefixOf t)

/-- `match_p` of `get_spec` (instrument.py line 37): a leaf's dot-joined
path key matches when it contains any of the query strings. -/
def match_p (query : List String) (key : String) : Bool :=
  query.any (fun p => strContains key p)

/-- `reduce_fn` of `get_spec` (instrument.py lines 38-42): componentwise
minimum of the lower bounds and maximum of the upper bounds. -/
def reduce_fn (l r : ArraySpec) : ArraySpec :=
  ⟨min l.bx0 r.bx0, max l.bx1 r.bx1, min l.by0 r.by0, max l.by1 r.by1⟩

mutual

/-- Depth-first collection of the leaves of a `SpecsTree` together with
their key paths (the `tree_map_with_path` / `tree_leaves` traversal of
`get_spec`). -/
def leavesWithPath (path : List String) : SpecsTree → List (List String × ArraySpec)
  | .leaf s => [(path, s)]
  | .node cs => leavesForest path cs

/-- Depth-first collection over a forest of keyed subtrees. -/
def leavesForest (path : List String) : SpecsForest → List (List String × ArraySpec)
  | .nil => []
  | .cons k t rest => leavesWithPath (path ++ [k]) t ++ leavesForest path rest

end

/-- `all_matches` of `get_spec` (instrument.py lines 43-46): the leaves
whose dot-joined path contains one of the query strings, in traversal
order. -/
def all_matches (specs : SpecsTree) (query : List String) : List ArraySpec :=
  (leavesWithPath [] specs).filterMap
    (fun pr => if match_p query (path2key pr.1) then some pr.2 else none)

/-- `get_spec(specs, query, merge=True)` (instrument.py lines 33-49):
`none` models the empty dict returned when nothing matches; otherwise the
matches are reduced with `reduce_fn` (Python's
`reduce(reduce_fn, all_matches[1:], all_matches[0])`). -/
def get_spec (specs : SpecsTree) (query : List String) : Option ArraySpec :=
  match all_matches specs query with
  | [] => none
  | m :: rest => some (rest.foldl reduce_fn m)

/-- Componentwise description of folding `reduce_fn`: the result bounds
every element and the start, and each component is attained. -/
lemma foldl_reduce_fn_spec (l : List ArraySpec) (a : ArraySpec) :
    ((l.foldl reduce_fn a).bx0 ≤ a.bx0 ∧ a.bx1 ≤ (l.foldl reduce_fn a).bx1 ∧
      (l.foldl reduce_fn a).by0 ≤ a.by0 ∧ a.by1 ≤ (l.foldl reduce_fn a).by1) ∧
    (∀ m ∈ l, (l.foldl reduce_fn a).bx0 ≤ m.bx0 ∧ m.bx1 ≤ (l.foldl reduce_fn a).bx1 ∧
      (l.foldl reduce_fn a).by0 ≤ m.by0 ∧ m.by1 ≤ (l.foldl reduce_fn a).by1) ∧
    (((l.foldl reduce_fn a).bx0 = a.bx0 ∨ ∃ m ∈ l, (l.foldl reduce_fn a).bx0 = m.bx0) ∧
     ((l.foldl reduce_fn a).bx1 = a.bx1 ∨ ∃ m ∈ l, (l.foldl reduce_fn a).bx1 = m.bx1) ∧
     ((l.foldl reduce_fn a).by0 = a.by0 ∨ ∃ m ∈ l, (l.foldl reduce_fn a).by0 = m.by0) ∧
     ((l.foldl reduce_fn a).by1 = a.by1 ∨ ∃ m ∈ l, (l.foldl reduce_fn a).by1 = m.by1)) := by
  induction l generalizing a with
  | nil => simp
  | cons x l ih =>
    rw [List.foldl_cons]
    obtain ⟨⟨hb0, hb1, hb2, hb3⟩, hall, hat0, hat1, hat2, hat3⟩ := ih (reduce_fn a x)
    have e0 : (reduce_fn a x).bx0 = min a.bx0 x.bx0 := rfl
    have e1 : (reduce_fn a x).bx1 = max a.bx1 x.bx1 := rfl
    have e2 : (reduce_fn a x).by0 = min a.by0 x.by0 := rfl
    have e3 : (reduce_fn a x).by1 = max a.by1 x.by1 := rfl
    rw [e0] at hb0 hat0
    rw [e1] at hb1 hat1
    rw [e2] at hb2 hat2
    rw [e3] at hb3 hat3
    refine ⟨⟨le_trans hb0 (min_le_left _ _), le_trans (le_max_left _ _) hb1,
      le_trans hb2 (min_le_left _ _), le_trans (le_max_left _ _) hb3⟩, ?_, ?_, ?_, ?_, ?_⟩
    · intro m hm
      rcases List.mem_cons.mp hm with hm | hm
      · subst hm
        exact ⟨le_trans hb0 (min_le_right _ _), le_trans (le_max_right _ _) hb1,
          le_trans hb2 (min_le_right _ _), le_trans (le_max_right _ _) hb3⟩
      · exact hall m hm
    · rcases hat0 with h | ⟨m, hm, h⟩
      · rcases min_cases a.bx0 x.bx0 with ⟨he, _⟩ | ⟨he, _⟩
        · exact Or.inl (h.trans he)
        · exact Or.inr ⟨x, List.mem_cons_self _ _, h.trans he⟩
      · exact Or.inr ⟨m, List.mem_cons_of_mem _ hm, h⟩
    · rcases hat1 with h | ⟨m, hm, h⟩
      · rcases max_cases a.bx1 x.bx1 with ⟨he, _⟩ | ⟨he, _⟩
        · exact Or.inl (h.trans he)
        · exact Or.inr ⟨x, List.mem_cons_self _ _, h.trans he⟩
      · exact Or.inr ⟨m, List.mem_cons_of_mem _ hm, h⟩
    · rcases hat2 with h | ⟨m, hm, h⟩
      · rcases min_cases a.by0 x.by0 with ⟨he, _⟩ | ⟨he, _⟩
        · exact Or.inl (h.trans he)
        · exact Or.inr ⟨x, List.mem_cons_self _ _, h.trans he⟩
      · exact Or.inr ⟨m, List.mem_cons_of_mem _ hm, h⟩
    · rcases hat3 with h | ⟨m, hm, h⟩
      · rcases max_cases a.by1 x.by1 with ⟨he, _⟩ | ⟨he, _⟩
        · exact Or.inl (h.trans he)
        · exact Or.inr ⟨x, List.mem_cons_self _ _, h.trans he⟩
      · exact Or.inr ⟨m, List.mem_cons_of_mem _ hm, h⟩

/-- Right-commutativity of `max`, used for `reduce_fn`. -/
lemma maxRightComm (a b c : Int) : max (max a b) c = max (max a c) b := by
  rw [max_assoc, max_comm b c, ← max_assoc]

/-- `reduce_fn` is right-commutative, so the fold is order-independent. -/
lemma reduce_fn_right_comm (z x y : ArraySpec) :
    reduce_fn (reduce_fn z x) y = reduce_fn (reduce_fn z y) x := by
  simp only [reduce_fn, ArraySpec.mk.injEq]
  exact ⟨min_right_comm _ _ _, maxRightComm _ _ _,
    min_right_comm _ _ _, maxRightComm _ _ _⟩

/-- C9: with `merge=True`, `get_spec` returns the empty mapping exactly
when no leaf's dot-joined path contains any query string; otherwise it
returns a single leaf whose `bounds_x`/`bounds_y` are componentwise the
minimum of the matching leaves' lower bounds and the maximum of their
upper bounds, and the `reduce_fn` fold is independent of the order in
which the matches are reduced. -/
theorem get_spec_C9 (specs : SpecsTree) (query : List String) :
    (get_spec specs query = none ↔ all_matches specs query = []) ∧
    (∀ s, get_spec specs query = some s →
      (∀ m ∈ all_matches specs query,
        s.bx0 ≤ m.bx0 ∧ m.bx1 ≤ s.bx1 ∧ s.by0 ≤ m.by0 ∧ m.by1 ≤ s.by1) ∧
      (∃ m ∈ all_matches specs query, s.bx0 = m.bx0) ∧
      (∃ m ∈ all_matches specs query, s.bx1 = m.bx1) ∧
      (∃ m ∈ all_matches specs query, s.by0 = m.by0) ∧
      (∃ m ∈ all_matches specs query, s.by1 = m.by1)) ∧
    (∀ (l₁ l₂ : List ArraySpec) (a : ArraySpec), l₁.Perm l₂ →
      l₁.foldl reduce_fn a = l₂.foldl reduce_fn a) := by
  refine ⟨?_, ?_, ?_⟩
  · rcases h : all_matches specs query with _ | ⟨m, rest⟩ <;> simp [get_spec, h]
  · intro s hs
    rcases h : all_matches specs query with _ | ⟨m, rest⟩
    · simp [get_spec, h] at hs
    · simp only [get_spec, h] at hs
      obtain hs := (Option.some.injEq _ _).mp hs
      obtain ⟨⟨b0, b1, b2, b3⟩, hall, ha0, ha1, ha2, ha3⟩ := foldl_reduce_fn_spec rest m
      rw [hs] at b0 b1 b2 b3 hall ha0 ha1 ha2 ha3
      refine ⟨?_, ?_, ?_, ?_, ?_⟩
      · intro m' hm'
        rcases List.mem_cons.mp hm' with hm' | hm'
        · subst hm'
          exact ⟨b0, b1, b2, b3⟩
        · exact hall m' hm'
      · rcases ha0 with hx | ⟨m', hm', hx⟩
        · exact ⟨m, List.mem_cons_self _ _, hx⟩
        · exact ⟨m', List.mem_cons_of_mem _ hm', hx⟩
      · rcases ha1 with hx | ⟨m', hm', hx⟩
        · exact ⟨m, List.mem_cons_self _ _, hx⟩
        · exact ⟨m', List.mem_cons_of_mem _ hm', hx⟩
      · rcases ha2 with hx | ⟨m', hm', hx⟩
        · exact ⟨m, List.mem_cons_self _ _, hx⟩
        · exact ⟨m', List.mem_cons_of_mem _ hm', hx⟩
      · rcases ha3 with hx | ⟨m', hm', hx⟩
        · exact ⟨m, List.mem_cons_self _ _, hx⟩
        · exact ⟨m', List.mem_cons_of_mem _ hm', hx⟩
  · intro l₁ l₂ a hp
    exact hp.foldl_eq' (fun x _ y _ z => reduce_fn_right_comm z x y) a

/-- A small concrete specs tree used to witness C9. -/
def exTree : SpecsTree :=
  .node (.cons "a" (.leaf ⟨0, 1, 0, 1⟩) (.cons "b" (.leaf ⟨-1, 2, 3, 4⟩) .nil))

/-- Witness for C9: on a two-leaf tree the merged leaf bounds all
matches, and reducing a permuted match list gives the same result. -/
theorem get_spec_C9_witness :
    (∀ m ∈ all_matches exTree ["a", "b"],
      (-1 : Int) ≤ m.bx0 ∧ m.bx1 ≤ 2 ∧ (0 : Int) ≤ m.by0 ∧ m.by1 ≤ 4) ∧
    ([⟨0, 1, 0, 1⟩, ⟨-1, 2, 3, 4⟩] : List ArraySpec).foldl reduce_fn ⟨5, 5, 5, 5⟩ =
      ([⟨-1, 2, 3, 4⟩, ⟨0, 1, 0, 1⟩] : List ArraySpec).foldl reduce_fn ⟨5, 5, 5, 5⟩ := by
  constructor
  · have h := (get_spec_C9 exTree ["a", "b"]).2.1 ⟨-1, 2, 0, 4⟩ (by decide)
    exact h.1
  · exact (get_spec_C9 exTree ["a", "b"]).2.2 _ _ _ (by decide)
